import Mathlib

/-!
Formal model of the omnimsg core: the packet codec (`format_packet`,
`parse_packet`), the non-blocking receive helper (`udp_recvfrom_nb`,
both the flag-based branch and the X68000 poll-then-read branch),
the POSIX line-input poll (`stdin_poll_line`) and one iteration of the
interaction loop in `main`, shallowly embedded from `src/omnimsg.c`
and `src/net_compat.h`.

C byte strings are modelled as `List Char`, one `Char` per byte.
A C string never contains the NUL byte, so the model functions are
only ever applied (by the program) to NUL-free lists; none of the
embedded operations inspects NUL specially, so the model extends the
C behaviour conservatively to all `List Char`.
-/

namespace Omnimsg

/-- Constant `MAX_NICK` (32) from omnimsg.c. -/
def MAX_NICK : Nat := 32

/-- Constant `MAX_TEXT` (512) from omnimsg.c. -/
def MAX_TEXT : Nat := 512

/-- Constant `MAX_PKT` (768) from omnimsg.c. -/
def MAX_PKT : Nat := 768

def CR : Char := '\r'

def LF : Char := '\n'

/-- The field separator of the wire format. -/
def SEP : Char := '|'

/-- The fixed leading tag plus first separator, `"OM1|"`, which
`format_packet` emits and `parse_packet` checks with
`strncmp(pkt, "OM1|", 4)`. -/
def omTag : List Char := ['O', 'M', '1', '|']

/-- The sanitizing copy loop of `format_packet` (omnimsg.c lines
147-153): walk `text`, skip `\r` and `\n`, and stop once `j`, the
number of bytes copied so far, reaches `sizeof(tmp) - 1 = MAX_TEXT - 1`. -/
def sanitize_loop : List Char → Nat → List Char
  | [], _ => []
  | c :: rest, j =>
    if j < MAX_TEXT - 1 then
      if c = CR ∨ c = LF then sanitize_loop rest j
      else c :: sanitize_loop rest (j + 1)
    else []

/-- The sanitized body `tmp` built by `format_packet` before the
`snprintf`: the loop starting from `j = 0`. -/
def sanitize (text : List Char) : List Char := sanitize_loop text 0

/-- Characters kept by the sanitizing loop: everything except CR and LF. -/
def keptChar (c : Char) : Bool := !(c = CR || c = LF)

/-- Model of `format_packet(out, out_size, nick, text)` from omnimsg.c lines
132-157: sanitize the text, then
`snprintf(out, out_size, "OM1|%s|%s", nick, tmp)`, which writes at most
`out_size - 1` bytes of the formatted string.  With `out_size = 0`
nothing is written (the C function returns immediately). -/
def format_packet (out_size : Nat) (nick text : List Char) : List Char :=
  if out_size = 0 then []
  else (omTag ++ nick ++ SEP :: sanitize text).take (out_size - 1)

/-- Model of C `strchr`: index of the first occurrence of `c` in `l`,
or `none` when `c` does not occur. -/
def strchr_idx (l : List Char) (c : Char) : Option Nat :=
  match l with
  | [] => none
  | x :: rest => if x = c then some 0 else (strchr_idx rest c).map (· + 1)

/-- Model of `parse_packet(pkt, nick_out, nick_out_size, text_out, text_out_size)`
from omnimsg.c lines 159-201, for valid (non-null) buffers.  Mirrors the
source exactly: reject unless the packet starts with `"OM1|"`; find the
first `|` after the tag (`strchr`); reject when it is absent or the nick
field in front of it is empty; clamp the nick to `nick_out_size - 1`
bytes and the remaining text to `text_out_size - 1` bytes.  `none`
models the C return value `-1`, `some (nick, text)` models `0` with the
two output buffers filled. -/
def parse_packet (pkt : List Char) (nick_out_size text_out_size : Nat) :
    Option (List Char × List Char) :=
  if nick_out_size = 0 ∨ text_out_size = 0 then none
  else if pkt.take 4 ≠ omTag then none
  else
    match strchr_idx (pkt.drop 4) SEP with
    | none => none
    | some nlen =>
      if nlen = 0 then none
      else
        let nlen2 := if nick_out_size ≤ nlen then nick_out_size - 1 else nlen
        let rest := (pkt.drop 4).drop (nlen + 1)
        let tlen := if text_out_size ≤ rest.length then text_out_size - 1
                    else rest.length
        some ((pkt.drop 4).take nlen2, rest.take tlen)

/-! ## Non-blocking receive helper (net_compat.h) -/

/-- POSIX `EWOULDBLOCK`; on Linux it coincides with `EAGAIN` (11). -/
def EWOULDBLOCK : Nat := 11

/-- POSIX `EAGAIN`. -/
def EAGAIN : Nat := 11

/-- The result taxonomy of the spec for `try_receive`. -/
inductive NbResult where
  | Received (n : Nat)
  | WouldBlock
  | IoError
  deriving DecidableEq

/-- Interpretation of the integer returned by `udp_recvfrom_nb` under its
documented convention (net_compat.h lines 96-99): `>0` bytes received,
`0` no data available (would block), `-1` error. -/
def interp_nb (r : Int) : NbResult :=
  if 0 < r then NbResult.Received r.toNat
  else if r = 0 then NbResult.WouldBlock
  else NbResult.IoError

/-- The flag-based (standard non-blocking socket) branch of
`udp_recvfrom_nb` (net_compat.h lines 133-157), as a function of the
`recvfrom` return value `n` and, when `n < 0`, the `errno` it left:
a negative `n` with a would-block errno yields `0`; a negative `n`
otherwise yields `-1`; `n == 0` yields `0`; a positive `n` is returned
as-is. -/
def udp_recvfrom_nb_flag (n : Int) (errno : Nat) : Int :=
  if n < 0 then
    if errno = EWOULDBLOCK ∨ errno = EAGAIN then 0 else -1
  else if n = 0 then 0
  else n

/-- The X68000 poll-then-read branch of `udp_recvfrom_nb`
(net_compat.h lines 110-132), as a function of the `getsockopt`
(`SO_SOCKLENRECV`) return value, the availability count it reported,
and the `recvfrom` return value that a read would produce:
if the availability query fails (`getsockopt != 0`) the function
returns `0`; if it reports nothing available, `0`; otherwise the read
is performed and any non-positive result is `-1`. -/
def udp_recvfrom_nb_x68k (getsockoptRet avail recvRet : Int) : Int :=
  if getsockoptRet ≠ 0 then 0
  else if avail ≤ 0 then 0
  else if recvRet ≤ 0 then -1
  else recvRet

/-! ## POSIX line-input poll (omnimsg.c, stdin_poll_line, lines 274-306) -/

/-- Result of one `read(0, tmp, 128)` in the POSIX branch: either a
failure with an errno, or a chunk of zero or more bytes. -/
inductive ReadResult where
  | readErr (errno : Nat)
  | chunk (bytes : List Char)
  deriving DecidableEq

/-- Result of one line-input poll: the integer returns 0 / 1 / -1 / -2
of `stdin_poll_line`, with the completed line attached to 1. -/
inductive PollResult where
  | noLine
  | lineReady (line : List Char)
  | ioErr
  | cancelled
  deriving DecidableEq

/-- The scan loop of the POSIX `stdin_poll_line` over the freshly read
chunk (omnimsg.c lines 290-304): on `\n`, terminate the line from the
accumulator, reset it and return immediately — the remaining bytes of
the chunk are not processed; `\r` is skipped; other bytes are appended
while the accumulator holds fewer than `MAX_TEXT - 1` bytes, and
dropped otherwise.  Returns the completed line (if any) and the
accumulator left for the next poll. -/
def stdin_scan (acc : List Char) : List Char → Option (List Char) × List Char
  | [] => (none, acc)
  | c :: rest =>
    if c = LF then (some acc, [])
    else if c = CR then stdin_scan acc rest
    else stdin_scan (if acc.length < MAX_TEXT - 1 then acc ++ [c] else acc) rest

/-- The POSIX `stdin_poll_line`, as a function of the persistent
accumulator (`static char buf`/`len`) and the outcome of the one
non-blocking `read`: a failed read maps EWOULDBLOCK/EAGAIN to
`noLine` (return 0) and anything else to `ioErr` (return -1);
a chunk (possibly empty, for `n == 0`) is scanned.  Returns the poll
result together with the new accumulator. -/
def stdin_poll_line (acc : List Char) (r : ReadResult) : PollResult × List Char :=
  match r with
  | ReadResult.readErr e =>
    if e = EWOULDBLOCK ∨ e = EAGAIN then (PollResult.noLine, acc)
    else (PollResult.ioErr, acc)
  | ReadResult.chunk cs =>
    match stdin_scan acc cs with
    | (some line, acc2) => (PollResult.lineReady line, acc2)
    | (none, acc2) => (PollResult.noLine, acc2)

/-! ## One iteration of the interaction loop (omnimsg.c, main, lines 441-542) -/

/-- What the socket will deliver next, in order: each element is either
a queued datagram (its payload bytes) or a receive-level failure. -/
inductive NetEvent where
  | datagram (d : List Char)
  | ioError
  deriving DecidableEq

/-- Observable actions of one loop iteration, in program order. -/
inductive Event where
  | rendMsg (nick text : List Char)
  | rendRaw (raw : List Char)
  | recvFailReported
  | inputFailReported
  | helpShown
  | sent (pkt : List Char)
  deriving DecidableEq

/-- The local quit command, `"/quit"`. -/
def quitCmd : List Char := ['/', 'q', 'u', 'i', 't']

/-- The local help command, `"/help"`. -/
def helpCmd : List Char := ['/', 'h', 'e', 'l', 'p']

/-- Rendering of one received datagram (omnimsg.c lines 458-468):
if `parse_packet` succeeds, render the decoded `(nick, text)`;
otherwise render the raw bytes. -/
def render_datagram (d : List Char) : Event :=
  match parse_packet d MAX_NICK MAX_TEXT with
  | some (n, t) => Event.rendMsg n t
  | none => Event.rendRaw d

/-- The drain phase (omnimsg.c lines 443-469): call `udp_recvfrom_nb`
repeatedly; a negative return reports the failure and breaks out of the
drain (the rest of the queue stays for the next iteration); a zero
return (empty queue, or a zero-byte datagram, which the helper also
reports as 0) breaks out; each positive return is rendered.  Returns
the events emitted and the queue left over. -/
def drain : List NetEvent → List Event × List NetEvent
  | [] => ([], [])
  | NetEvent.ioError :: rest => ([Event.recvFailReported], rest)
  | NetEvent.datagram d :: rest =>
    if d.isEmpty then ([], rest)
    else
      let (es, r) := drain rest
      (render_datagram d :: es, r)

/-- The input phase (omnimsg.c lines 509-538): dispatch on the result
of the single `stdin_poll_line` call.  Returns whether the loop
terminates (`break`) and the events emitted.  `r == -2` (cancel) and
`r < 0` (input failure, reported) break; a ready `/quit` line breaks;
`/help` renders help; a non-empty line is formatted with the session
nick and sent; an empty line and `r == 0` do nothing. -/
def input_phase (nick : List Char) (p : PollResult) : Bool × List Event :=
  match p with
  | PollResult.cancelled => (true, [])
  | PollResult.ioErr => (true, [Event.inputFailReported])
  | PollResult.noLine => (false, [])
  | PollResult.lineReady line =>
    if line = quitCmd then (true, [])
    else if line = helpCmd then (false, [Event.helpShown])
    else if line ≠ [] then
      (false, [Event.sent (format_packet MAX_PKT nick line)])
    else (false, [])

/-- One iteration of the interaction loop while running: the drain
phase, then the input phase.  `sendResult` is the value `sendto` would
return for a send performed this iteration; the source discards it
(`(void)sendto(...)`), so it is unused.  Returns the events emitted in
order, the remaining network queue, and whether the loop terminated. -/
def loop_iter (nick : List Char) (net : List NetEvent) (inp : PollResult)
    (sendResult : Int) : List Event × List NetEvent × Bool :=
  let (des, net2) := drain net
  let (term, ies) := input_phase nick inp
  let _ := sendResult
  (des ++ ies, net2, term)

/-! ## Codec lemmas -/

theorem sanitize_loop_eq (l : List Char) (j : Nat) :
    sanitize_loop l j = (l.filter keptChar).take (MAX_TEXT - 1 - j) := by
  induction l generalizing j with
  | nil => simp [sanitize_loop]
  | cons c rest ih =>
    by_cases hj : j < MAX_TEXT - 1
    · by_cases hc : c = CR ∨ c = LF
      · have hk : keptChar c = false := by
          rcases hc with h | h <;> simp [keptChar, h]
        simp [sanitize_loop, hj, hc, List.filter_cons, hk, ih]
      · push_neg at hc
        have hk : keptChar c = true := by
          simp [keptChar, hc.1, hc.2]
        have hstep : MAX_TEXT - 1 - j = (MAX_TEXT - 1 - (j + 1)) + 1 := by
          simp only [MAX_TEXT] at hj ⊢; omega
        rw [hstep]
        simp [sanitize_loop, hj, hc.1, hc.2, List.filter_cons, hk,
          List.take_succ_cons, ih]
    · have hz : MAX_TEXT - 1 - j = 0 := by
        simp only [MAX_TEXT] at hj ⊢; omega
      simp [sanitize_loop, hj, hz]

theorem sanitize_eq (text : List Char) :
    sanitize text = (text.filter keptChar).take (MAX_TEXT - 1) := by
  simpa using sanitize_loop_eq text 0

theorem sanitize_length_le (text : List Char) :
    (sanitize text).length ≤ MAX_TEXT - 1 := by
  rw [sanitize_eq]
  exact List.length_take_le _ _

theorem filter_of_no_crlf (text : List Char) (hcr : CR ∉ text) (hlf : LF ∉ text) :
    text.filter keptChar = text := by
  refine List.filter_eq_self.mpr ?_
  intro a ha
  have h1 : a ≠ CR := fun e => hcr (e ▸ ha)
  have h2 : a ≠ LF := fun e => hlf (e ▸ ha)
  simp [keptChar, h1, h2]

theorem sanitize_of_clean (text : List Char) (hcr : CR ∉ text) (hlf : LF ∉ text)
    (hlen : text.length ≤ MAX_TEXT - 1) : sanitize text = text := by
  rw [sanitize_eq, filter_of_no_crlf text hcr hlf]
  exact List.take_of_length_le hlen

theorem format_packet_eq (nick text : List Char) (h : nick.length ≤ MAX_NICK - 1) :
    format_packet MAX_PKT nick text = omTag ++ (nick ++ SEP :: sanitize text) := by
  have hs := sanitize_length_le text
  have hlen : (omTag ++ (nick ++ SEP :: sanitize text)).length ≤ MAX_PKT - 1 := by
    simp only [MAX_NICK] at h
    simp only [MAX_TEXT] at hs
    simp [omTag, MAX_PKT, List.length_append]
    omega
  have hz : ¬ MAX_PKT = 0 := by simp [MAX_PKT]
  rw [format_packet, if_neg hz, List.append_assoc]
  exact List.take_of_length_le hlen

theorem strchr_idx_append_cons (l : List Char) (c : Char) (r : List Char)
    (h : c ∉ l) : strchr_idx (l ++ c :: r) c = some l.length := by
  induction l with
  | nil => simp [strchr_idx]
  | cons x xs ih =>
    have hx : ¬ x = c := fun e => h (e ▸ List.mem_cons_self x xs)
    have ih2 := ih (fun hm => h (List.mem_cons_of_mem _ hm))
    simp [strchr_idx, hx, ih2]

theorem strchr_idx_eq_none_iff (l : List Char) (c : Char) :
    strchr_idx l c = none ↔ c ∉ l := by
  induction l with
  | nil => simp [strchr_idx]
  | cons x xs ih =>
    by_cases hx : x = c
    · simp [strchr_idx, hx]
    · simp [strchr_idx, hx, ih, Ne.symm hx]

theorem strchr_idx_eq_some_zero_iff (l : List Char) (c : Char) :
    strchr_idx l c = some 0 ↔ l.head? = some c := by
  cases l with
  | nil => simp [strchr_idx]
  | cons x xs =>
    by_cases hx : x = c
    · simp [strchr_idx, hx]
    · simp [strchr_idx, hx]

theorem parse_packet_wellformed (nick body : List Char) (hsep : SEP ∉ nick)
    (hne : nick ≠ []) (hn : nick.length < MAX_NICK) (hb : body.length < MAX_TEXT) :
    parse_packet (omTag ++ (nick ++ SEP :: body)) MAX_NICK MAX_TEXT
      = some (nick, body) := by
  have h4 : (4 : Nat) = omTag.length := rfl
  have htake : (omTag ++ (nick ++ SEP :: body)).take 4 = omTag := by
    rw [h4]; exact List.take_left omTag _
  have hdrop : (omTag ++ (nick ++ SEP :: body)).drop 4 = nick ++ SEP :: body := by
    rw [h4]; exact List.drop_left omTag _
  have hs := strchr_idx_append_cons nick SEP body hsep
  have hlen0 : ¬ nick.length = 0 := by
    simpa [List.length_eq_zero] using hne
  have hlt : ¬ MAX_NICK ≤ nick.length := not_le.mpr hn
  have htk : (nick ++ SEP :: body).take nick.length = nick := List.take_left nick _
  have hdr : (nick ++ SEP :: body).drop (nick.length + 1) = body := by
    rw [List.append_cons]
    have hl : nick.length + 1 = (nick ++ [SEP]).length := by simp
    rw [hl]
    exact List.drop_left _ body
  have htl : ¬ MAX_TEXT ≤ body.length := not_le.mpr hb
  have hsz : ¬ (MAX_NICK = 0 ∨ MAX_TEXT = 0) := by simp [MAX_NICK, MAX_TEXT]
  rw [parse_packet, if_neg hsz, if_neg (not_not_intro htake), hdrop, hs]
  simp only [if_neg hlen0, if_neg hlt, if_neg htl, hdr, htk, List.take_length]

/-! ## Loop and input lemmas -/

theorem drain_map_datagram (ds : List (List Char)) (hne : ∀ d ∈ ds, d ≠ []) :
    drain (ds.map NetEvent.datagram) = (ds.map render_datagram, []) := by
  induction ds with
  | nil => rfl
  | cons d rest ih =>
    have hd : d.isEmpty = false := by
      cases d with
      | nil => exact absurd rfl (hne [] (List.mem_cons_self _ _))
      | cons x xs => rfl
    have ih2 := ih (fun x hx => hne x (List.mem_cons_of_mem _ hx))
    simp [drain, hd, ih2]

theorem stdin_scan_append_lf (pre post : List Char) (h : LF ∉ pre) :
    ∀ acc, stdin_scan acc (pre ++ LF :: post) = (some (stdin_scan acc pre).2, []) := by
  induction pre with
  | nil => intro acc; simp [stdin_scan]
  | cons c cs ih =>
    intro acc
    have hc : ¬ c = LF := fun e => h (e ▸ List.mem_cons_self c cs)
    have ih2 := ih (fun hm => h (List.mem_cons_of_mem _ hm))
    have hcrlf : ¬ CR = LF := by decide
    by_cases hcr : c = CR
    · simp [stdin_scan, hc, hcr, hcrlf, ih2]
    · simp [stdin_scan, hc, hcr, ih2]

/-! ## Claim theorems -/

set_option maxRecDepth 40000

/-- C1 (counterexample): the round-trip property as stated fails for the
empty nick, which contains no separator and is within every length
bound: `format_packet` then produces `"OM1||hi"`, whose nick field is
empty, and `parse_packet` rejects it instead of returning the original
pair. -/
theorem roundtrip_empty_nick_cex :
    parse_packet (format_packet MAX_PKT [] ['h', 'i']) MAX_NICK MAX_TEXT = none
      ∧ (none : Option (List Char × List Char)) ≠ some (([] : List Char), ['h', 'i']) := by
  decide

/-- C1 (amended): for every non-empty nick free of the separator that
fits the nick buffer (length < MAX_NICK) and every text free of CR/LF
that fits the body buffer (length < MAX_TEXT), parsing the formatted
packet returns exactly the original pair — including when the text
contains `|` characters. -/
theorem parse_format_packet_roundtrip (nick text : List Char)
    (hne : nick ≠ []) (hsep : SEP ∉ nick) (hn : nick.length < MAX_NICK)
    (hcr : CR ∉ text) (hlf : LF ∉ text) (ht : text.length < MAX_TEXT) :
    parse_packet (format_packet MAX_PKT nick text) MAX_NICK MAX_TEXT
      = some (nick, text) := by
  have h1 : nick.length ≤ MAX_NICK - 1 := by
    simp only [MAX_NICK] at hn ⊢; omega
  have h2 : text.length ≤ MAX_TEXT - 1 := by
    simp only [MAX_TEXT] at ht ⊢; omega
  rw [format_packet_eq nick text h1, sanitize_of_clean text hcr hlf h2]
  exact parse_packet_wellformed nick text hsep hne hn ht

/-- C1 (witness): the round trip at a concrete valid input whose text
contains an embedded separator: nick `"al"`, text `"hi|x"`. -/
theorem parse_format_packet_roundtrip_witness :
    (['a', 'l'] : List Char) ≠ [] ∧ SEP ∉ (['a', 'l'] : List Char)
      ∧ (['a', 'l'] : List Char).length < MAX_NICK
      ∧ CR ∉ (['h', 'i', '|', 'x'] : List Char)
      ∧ LF ∉ (['h', 'i', '|', 'x'] : List Char)
      ∧ (['h', 'i', '|', 'x'] : List Char).length < MAX_TEXT
      ∧ parse_packet (format_packet MAX_PKT ['a', 'l'] ['h', 'i', '|', 'x'])
          MAX_NICK MAX_TEXT = some (['a', 'l'], ['h', 'i', '|', 'x']) :=
  ⟨by decide, by decide, by decide, by decide, by decide, by decide,
   parse_format_packet_roundtrip ['a', 'l'] ['h', 'i', '|', 'x']
     (by decide) (by decide) (by decide) (by decide) (by decide) (by decide)⟩

/-- C2 (counterexample): the sanitized-body truncation bound is 511
bytes, not 512: for a text of 513 `x` bytes (sanitized form of length
513 > 512), the recovered text is the 511-byte prefix, which differs
from the 512-byte prefix the claim names. -/
theorem format_packet_truncation_cex :
    parse_packet (format_packet MAX_PKT ['a', 'l', 'i', 'c', 'e']
        (List.replicate 513 'x')) MAX_NICK MAX_TEXT
      = some (['a', 'l', 'i', 'c', 'e'], List.replicate 511 'x')
      ∧ List.replicate 511 'x' ≠ (List.replicate 513 'x').take 512 := by
  decide

/-- C2 (amended): `format_packet` truncates the CR/LF-stripped text to
`MAX_TEXT - 1 = 511` bytes: for every valid nick and every text whose
sanitized form is longer than 511 bytes, the packet decodes and the
recovered text is exactly the 511-byte prefix of the sanitized text. -/
theorem format_packet_truncates_body (nick text : List Char)
    (hne : nick ≠ []) (hsep : SEP ∉ nick) (hn : nick.length < MAX_NICK)
    (hlong : MAX_TEXT - 1 < (text.filter keptChar).length) :
    parse_packet (format_packet MAX_PKT nick text) MAX_NICK MAX_TEXT
      = some (nick, (text.filter keptChar).take (MAX_TEXT - 1))
      ∧ ((text.filter keptChar).take (MAX_TEXT - 1)).length = MAX_TEXT - 1 := by
  have h1 : nick.length ≤ MAX_NICK - 1 := by
    simp only [MAX_NICK] at hn ⊢; omega
  have hb : ((text.filter keptChar).take (MAX_TEXT - 1)).length < MAX_TEXT := by
    have := List.length_take_le (MAX_TEXT - 1) (text.filter keptChar)
    simp only [MAX_TEXT] at this ⊢; omega
  refine ⟨?_, ?_⟩
  · rw [format_packet_eq nick text h1, sanitize_eq]
    exact parse_packet_wellformed nick _ hsep hne hn hb
  · rw [List.length_take]
    simp only [MAX_TEXT] at hlong ⊢
    omega

/-- C2 (witness): truncation at a concrete input: nick `"a"`, text of
513 `x` bytes. -/
theorem format_packet_truncates_body_witness :
    (['a'] : List Char) ≠ [] ∧ SEP ∉ (['a'] : List Char)
      ∧ (['a'] : List Char).length < MAX_NICK
      ∧ MAX_TEXT - 1 < ((List.replicate 513 'x').filter keptChar).length
      ∧ (parse_packet (format_packet MAX_PKT ['a'] (List.replicate 513 'x'))
          MAX_NICK MAX_TEXT
        = some (['a'], ((List.replicate 513 'x').filter keptChar).take (MAX_TEXT - 1))
        ∧ (((List.replicate 513 'x').filter keptChar).take (MAX_TEXT - 1)).length
          = MAX_TEXT - 1) :=
  ⟨by decide, by decide, by decide, by decide,
   format_packet_truncates_body ['a'] (List.replicate 513 'x')
     (by decide) (by decide) (by decide) (by decide)⟩

/-- C8 (counterexample): "for every text" fails: a text whose CR/LF-free
form is 512 bytes long is additionally truncated to 511 bytes, so the
recovered text is not the input with exactly the CR and LF characters
deleted. -/
theorem format_packet_sanitize_cex :
    parse_packet (format_packet MAX_PKT ['a', 'l']
        (List.replicate 511 'a' ++ ['\n', 'b'])) MAX_NICK MAX_TEXT
      = some (['a', 'l'], List.replicate 511 'a')
      ∧ List.replicate 511 'a'
        ≠ (List.replicate 511 'a' ++ ['\n', 'b']).filter keptChar := by
  decide

/-- C8 (amended): for every valid nick and every text whose CR/LF-free
form fits the 511-byte body bound, the recovered text equals the input
text with exactly the CR and LF characters deleted, preserving the
relative order of the remaining characters (`List.filter`). -/
theorem format_packet_strips_crlf (nick text : List Char)
    (hne : nick ≠ []) (hsep : SEP ∉ nick) (hn : nick.length < MAX_NICK)
    (hshort : (text.filter keptChar).length ≤ MAX_TEXT - 1) :
    parse_packet (format_packet MAX_PKT nick text) MAX_NICK MAX_TEXT
      = some (nick, text.filter keptChar) := by
  have h1 : nick.length ≤ MAX_NICK - 1 := by
    simp only [MAX_NICK] at hn ⊢; omega
  have hb : (text.filter keptChar).length < MAX_TEXT := by
    simp only [MAX_TEXT] at hshort ⊢; omega
  rw [format_packet_eq nick text h1, sanitize_eq,
    List.take_of_length_le hshort]
  exact parse_packet_wellformed nick _ hsep hne hn hb

/-- C8 (witness): sanitization at a concrete input: nick `"al"`, text
`"h\r\ni\n!"`, recovered text `"hi!"`. -/
theorem format_packet_strips_crlf_witness :
    (['a', 'l'] : List Char) ≠ [] ∧ SEP ∉ (['a', 'l'] : List Char)
      ∧ (['a', 'l'] : List Char).length < MAX_NICK
      ∧ ((['h', '\r', '\n', 'i', '\n', '!'] : List Char).filter keptChar).length
          ≤ MAX_TEXT - 1
      ∧ parse_packet (format_packet MAX_PKT ['a', 'l']
            ['h', '\r', '\n', 'i', '\n', '!']) MAX_NICK MAX_TEXT
        = some (['a', 'l'], (['h', '\r', '\n', 'i', '\n', '!'] : List Char).filter keptChar) :=
  ⟨by decide, by decide, by decide, by decide,
   format_packet_strips_crlf ['a', 'l'] ['h', '\r', '\n', 'i', '\n', '!']
     (by decide) (by decide) (by decide) (by decide)⟩

/-- C3: with valid output buffer sizes, `parse_packet` returns an error
(`none`) exactly when the input does not start with `"OM1|"`, or no `|`
occurs after that position, or the nick field is empty (the byte right
after the tag is `|`); in every other case it returns a decoded pair.
The model is a total function, so no input crashes it. -/
theorem parse_packet_none_iff (pkt : List Char) (ns ts : Nat)
    (hns : 0 < ns) (hts : 0 < ts) :
    parse_packet pkt ns ts = none ↔
      (¬ omTag <+: pkt ∨ SEP ∉ pkt.drop 4 ∨ (pkt.drop 4).head? = some SEP) := by
  have hsz : ¬ (ns = 0 ∨ ts = 0) := by omega
  rw [parse_packet, if_neg hsz]
  have hpre : omTag <+: pkt ↔ pkt.take 4 = omTag := by
    rw [List.prefix_iff_eq_take]
    constructor
    · intro h; exact h.symm
    · intro h; exact h.symm
  by_cases htag : pkt.take 4 = omTag
  · rw [if_neg (not_not_intro htag)]
    cases hidx : strchr_idx (pkt.drop 4) SEP with
    | none =>
      have hmem : SEP ∉ pkt.drop 4 := (strchr_idx_eq_none_iff _ _).mp hidx
      simp [hpre, htag, hmem]
    | some nlen =>
      by_cases h0 : nlen = 0
      · subst h0
        have hhd : (pkt.drop 4).head? = some SEP :=
          (strchr_idx_eq_some_zero_iff _ _).mp hidx
        simp [hpre, htag, hhd]
      · have hmem : SEP ∈ pkt.drop 4 := by
          by_contra hm
          rw [← strchr_idx_eq_none_iff (pkt.drop 4) SEP] at hm
          rw [hidx] at hm
          exact Option.noConfusion hm
        have hhd : ¬ (pkt.drop 4).head? = some SEP := by
          intro hh
          have h2 := (strchr_idx_eq_some_zero_iff (pkt.drop 4) SEP).mpr hh
          rw [hidx] at h2
          exact h0 (Option.some.inj h2)
        rw [List.head?_drop] at hhd
        simp [hpre, htag, hmem, hhd, h0]
  · rw [if_pos htag]
    have : ¬ omTag <+: pkt := fun h => htag (hpre.mp h)
    simp [this]

/-- C3 (witness): the error characterization applied at the concrete
well-formed packet `"OM1|a|b"` with the buffer sizes `main` uses. -/
theorem parse_packet_none_iff_witness :
    0 < MAX_NICK ∧ 0 < MAX_TEXT
      ∧ (parse_packet ['O', 'M', '1', '|', 'a', '|', 'b'] MAX_NICK MAX_TEXT = none ↔
          (¬ omTag <+: ['O', 'M', '1', '|', 'a', '|', 'b']
            ∨ SEP ∉ (['O', 'M', '1', '|', 'a', '|', 'b'] : List Char).drop 4
            ∨ ((['O', 'M', '1', '|', 'a', '|', 'b'] : List Char).drop 4).head? = some SEP)) :=
  ⟨by decide, by decide,
   parse_packet_none_iff ['O', 'M', '1', '|', 'a', '|', 'b'] MAX_NICK MAX_TEXT
     (by decide) (by decide)⟩

/-- C9: `format_packet` never shortens the nick itself — only the whole
output is capped at `out_size - 1 = 767` bytes by `snprintf` — so a
separator-free nick of 764 bytes pushes the second separator past the
cap: the encoded output contains fewer than two separators and
`parse_packet` rejects it. -/
theorem format_packet_oversized_nick_undecodable :
    ∃ nick text : List Char, SEP ∉ nick ∧ 764 ≤ nick.length
      ∧ (format_packet MAX_PKT nick text).count SEP < 2
      ∧ parse_packet (format_packet MAX_PKT nick text) MAX_NICK MAX_TEXT = none :=
  ⟨List.replicate 764 'a', ['x'], by decide, by decide, by decide, by decide⟩

/-- C5 (counterexample): in the flag-based branch, a `recvfrom` result
of 0 (a zero-byte datagram) is returned as 0, which under the helper's
documented convention means `WouldBlock`, not `Received` carrying zero
bytes. -/
theorem udp_flag_zero_datagram_cex :
    interp_nb (udp_recvfrom_nb_flag 0 0) = NbResult.WouldBlock
      ∧ interp_nb (udp_recvfrom_nb_flag 0 0) ≠ NbResult.Received 0 := by
  decide

/-- C5 (amended): the flag-based branch maps a failed receive with a
would-block errno to `WouldBlock`, any other failed receive to
`IoError`, every positive byte count to `Received`, and a zero byte
count to `WouldBlock` (not `Received`). -/
theorem udp_flag_mapping (n : Int) (e : Nat) :
    (n < 0 → (e = EWOULDBLOCK ∨ e = EAGAIN) →
        interp_nb (udp_recvfrom_nb_flag n e) = NbResult.WouldBlock)
      ∧ (n < 0 → ¬ (e = EWOULDBLOCK ∨ e = EAGAIN) →
        interp_nb (udp_recvfrom_nb_flag n e) = NbResult.IoError)
      ∧ (0 < n → interp_nb (udp_recvfrom_nb_flag n e) = NbResult.Received n.toNat)
      ∧ (n = 0 → interp_nb (udp_recvfrom_nb_flag n e) = NbResult.WouldBlock) := by
  refine ⟨?_, ?_, ?_, ?_⟩
  · intro h he
    simp [udp_recvfrom_nb_flag, h, he, interp_nb]
  · intro h he
    rw [udp_recvfrom_nb_flag, if_pos h, if_neg he]
    decide
  · intro h
    have h1 : ¬ n < 0 := by omega
    have h2 : ¬ n = 0 := by omega
    rw [udp_recvfrom_nb_flag, if_neg h1, if_neg h2, interp_nb, if_pos h]
  · intro h
    subst h
    norm_num [udp_recvfrom_nb_flag, interp_nb]

/-- C5 (witness): the amended mapping at concrete inputs: a would-block
failure, an `EINTR`-style failure, a 7-byte datagram and a zero-byte
datagram. -/
theorem udp_flag_mapping_witness :
    interp_nb (udp_recvfrom_nb_flag (-1) 11) = NbResult.WouldBlock
      ∧ interp_nb (udp_recvfrom_nb_flag (-1) 4) = NbResult.IoError
      ∧ interp_nb (udp_recvfrom_nb_flag 7 0) = NbResult.Received 7
      ∧ interp_nb (udp_recvfrom_nb_flag 0 0) = NbResult.WouldBlock :=
  ⟨(udp_flag_mapping (-1) 11).1 (by decide) (by decide),
   (udp_flag_mapping (-1) 4).2.1 (by decide) (by decide),
   (udp_flag_mapping 7 0).2.2.1 (by decide),
   (udp_flag_mapping 0 0).2.2.2 (by decide)⟩

/-- C10: in the X68000 branch, a failing availability query
(`getsockopt` returning nonzero) yields the return value 0, i.e.
`WouldBlock`, never `IoError`, and the result does not depend on what a
read would have produced (no read is attempted). -/
theorem udp_x68k_sockopt_failure (g a r r2 : Int) (hg : g ≠ 0) :
    udp_recvfrom_nb_x68k g a r = 0
      ∧ interp_nb (udp_recvfrom_nb_x68k g a r) = NbResult.WouldBlock
      ∧ udp_recvfrom_nb_x68k g a r = udp_recvfrom_nb_x68k g a r2 := by
  simp [udp_recvfrom_nb_x68k, hg, interp_nb]

/-- C10 (witness): the availability-query failure case at concrete
inputs: `getsockopt` returns -1, 5 bytes would have been available, and
the two hypothetical read results 7 and -3 are indistinguishable. -/
theorem udp_x68k_sockopt_failure_witness :
    (-1 : Int) ≠ 0
      ∧ (udp_recvfrom_nb_x68k (-1) 5 7 = 0
        ∧ interp_nb (udp_recvfrom_nb_x68k (-1) 5 7) = NbResult.WouldBlock
        ∧ udp_recvfrom_nb_x68k (-1) 5 7 = udp_recvfrom_nb_x68k (-1) 5 (-3)) :=
  ⟨by decide, udp_x68k_sockopt_failure (-1) 5 7 (-3) (by decide)⟩

/-- C6 (counterexample): bytes after the terminator are not retained:
polling an empty accumulator with the chunk `"ab\ncd"` emits the line
`"ab"` and leaves the accumulator empty — the bytes `"cd"` after the
terminator are discarded, not kept for the next poll. -/
theorem stdin_poll_line_retain_cex :
    stdin_poll_line [] (ReadResult.chunk ['a', 'b', '\n', 'c', 'd'])
      = (PollResult.lineReady ['a', 'b'], ([] : List Char))
      ∧ ([] : List Char) ≠ ['c', 'd'] := by
  decide

/-- C6 (amended): when the polled chunk contains a terminator `\n`, the
call emits everything accumulated so far (the persistent accumulator
extended by the chunk's kept bytes before the first terminator) as a
completed line, and the accumulator is reset to empty: bytes of the
chunk after the terminator are discarded, not retained. -/
theorem stdin_poll_line_lf_emits (acc pre post : List Char) (h : LF ∉ pre) :
    stdin_poll_line acc (ReadResult.chunk (pre ++ LF :: post))
      = (PollResult.lineReady (stdin_scan acc pre).2, []) := by
  rw [stdin_poll_line, stdin_scan_append_lf pre post h acc]

/-- C6 (witness): a poll with accumulator `"x"`, chunk `"a\nzw"`: the
line `"xa"` is emitted and the accumulator is left empty. -/
theorem stdin_poll_line_lf_emits_witness :
    LF ∉ (['a'] : List Char)
      ∧ stdin_poll_line ['x'] (ReadResult.chunk (['a'] ++ LF :: ['z', 'w']))
        = (PollResult.lineReady (stdin_scan ['x'] ['a']).2, []) :=
  ⟨by decide, stdin_poll_line_lf_emits ['x'] ['a'] ['z', 'w'] (by decide)⟩

/-- C4 (counterexample): the unrestricted drain claim fails for a
zero-byte datagram: `recvfrom` returns 0 for it, which
`udp_recvfrom_nb` reports as 0, the would-block code, so the drain
stops there — with the queue `["x", "", "y"]` and a pending input
line, the zero-byte datagram is consumed unrendered, `"y"` is not
rendered before the input line is processed (it stays queued), and
the iteration's events are not the three renders followed by the
input events. -/
theorem loop_iter_zero_datagram_cex :
    (loop_iter ['a', 'l']
        [NetEvent.datagram ['x'], NetEvent.datagram [], NetEvent.datagram ['y']]
        (PollResult.lineReady ['h', 'i']) 0).1
        ≠ [['x'], ([] : List Char), ['y']].map render_datagram
          ++ (input_phase ['a', 'l'] (PollResult.lineReady ['h', 'i'])).2
      ∧ render_datagram ['y'] ∉
        (loop_iter ['a', 'l']
          [NetEvent.datagram ['x'], NetEvent.datagram [], NetEvent.datagram ['y']]
          (PollResult.lineReady ['h', 'i']) 0).1
      ∧ (loop_iter ['a', 'l']
          [NetEvent.datagram ['x'], NetEvent.datagram [], NetEvent.datagram ['y']]
          (PollResult.lineReady ['h', 'i']) 0).2.1
        = [NetEvent.datagram ['y']] := by
  decide

/-- C4 (amended): in one iteration while running, provided every
currently-queued datagram is non-empty (a zero-byte datagram is
reported by `udp_recvfrom_nb` as 0, the would-block code, and ends the
drain early), the drain phase renders every queued datagram, the queue
is fully drained, and every render event precedes every event of the
input phase — in particular, with three such datagrams and a pending
input line, all three are rendered before the line is processed. -/
theorem loop_iter_drain_before_input (nick : List Char) (ds : List (List Char))
    (inp : PollResult) (s : Int) (hne : ∀ d ∈ ds, d ≠ []) :
    (loop_iter nick (ds.map NetEvent.datagram) inp s).1
        = ds.map render_datagram ++ (input_phase nick inp).2
      ∧ (loop_iter nick (ds.map NetEvent.datagram) inp s).2.1 = [] := by
  have h := drain_map_datagram ds hne
  simp [loop_iter, h]

/-- C4 (witness): three concrete queued datagrams and a pending line:
the three renders come first, then the send of the typed line. -/
theorem loop_iter_drain_before_input_witness :
    (∀ d ∈ [['x'], ['y'], ['z']], d ≠ ([] : List Char))
      ∧ ((loop_iter ['a', 'l'] ([['x'], ['y'], ['z']].map NetEvent.datagram)
            (PollResult.lineReady ['h', 'i']) 0).1
          = [['x'], ['y'], ['z']].map render_datagram
            ++ (input_phase ['a', 'l'] (PollResult.lineReady ['h', 'i'])).2
        ∧ (loop_iter ['a', 'l'] ([['x'], ['y'], ['z']].map NetEvent.datagram)
            (PollResult.lineReady ['h', 'i']) 0).2.1 = []) :=
  ⟨by decide,
   loop_iter_drain_before_input ['a', 'l'] [['x'], ['y'], ['z']]
     (PollResult.lineReady ['h', 'i']) 0 (by decide)⟩

/-- C7: one iteration terminates the loop exactly on a `Cancelled`
input result, an input-level `IoError`, or a ready `/quit` line; the
iteration's outcome does not depend on the `sendto` result (the source
discards it), and a receive-level `IoError` at the head of the queue is
reported as an event without terminating the loop. -/
theorem loop_iter_exit_characterization (nick : List Char) (net : List NetEvent)
    (inp : PollResult) (s s2 : Int) :
    ((loop_iter nick net inp s).2.2 = true ↔
        (inp = PollResult.cancelled ∨ inp = PollResult.ioErr
          ∨ inp = PollResult.lineReady quitCmd))
      ∧ loop_iter nick net inp s = loop_iter nick net inp s2
      ∧ (net.head? = some NetEvent.ioError →
          Event.recvFailReported ∈ (loop_iter nick net inp s).1) := by
  refine ⟨?_, rfl, ?_⟩
  · have hterm : (loop_iter nick net inp s).2.2 = (input_phase nick inp).1 := rfl
    rw [hterm]
    cases inp with
    | noLine => simp [input_phase]
    | ioErr => simp [input_phase]
    | cancelled => simp [input_phase]
    | lineReady line =>
      have h1 : ¬ helpCmd = quitCmd := by decide
      have h2 : ¬ quitCmd = ([] : List Char) := by decide
      have h3 : ¬ helpCmd = ([] : List Char) := by decide
      by_cases hq : line = quitCmd
      · simp [input_phase, hq]
      · by_cases hh : line = helpCmd
        · simp [input_phase, hq, hh, h1]
        · by_cases he : line = []
          · simp [input_phase, hq, hh, he, h2, h3]
          · simp [input_phase, hq, hh, he]
  · intro hhead
    cases net with
    | nil => exact absurd hhead (by simp)
    | cons e rest =>
      have he : e = NetEvent.ioError := by
        simpa using hhead
      subst he
      simp [loop_iter, drain]

/-- C7 (witness): with a receive failure queued and no input, the
iteration reports the failure and keeps running; the send result is
irrelevant. -/
theorem loop_iter_exit_characterization_witness :
    ((loop_iter ['a'] [NetEvent.ioError] PollResult.noLine 0).2.2 = true ↔
        (PollResult.noLine = PollResult.cancelled
          ∨ PollResult.noLine = PollResult.ioErr
          ∨ PollResult.noLine = PollResult.lineReady quitCmd))
      ∧ loop_iter ['a'] [NetEvent.ioError] PollResult.noLine 0
          = loop_iter ['a'] [NetEvent.ioError] PollResult.noLine 1
      ∧ (([NetEvent.ioError] : List NetEvent).head? = some NetEvent.ioError →
          Event.recvFailReported
            ∈ (loop_iter ['a'] [NetEvent.ioError] PollResult.noLine 0).1) :=
  loop_iter_exit_characterization ['a'] [NetEvent.ioError] PollResult.noLine 0 1

end Omnimsg
